import Mathlib

/-!
# Verification of the image-to-C-array converter

A shallow embedding, in Lean 4, of the core of `image_converter.py`:

* `ImageConverter.rgb888_to_rgb565` — the pixel packer (RGB888 → RGB565);
* identifier derivation from a filename stem (`image_to_c_array`, lines 54-58);
* generation of the C header text (`image_to_c_array`, lines 60-108);
* the directory scan with its conversion tally (`scan_and_convert`);
* the exit-code logic in `main`.

Python strings are modelled as `List Char` (a Python `str` is a sequence of
code points).  The two Unicode-dependent string operations the program uses,
`str.isalpha` (line 57) and `str.upper` (lines 71-72, 104-105), are kept
abstract as the fields of a `PyStr` record: theorems assume only the facts
they need about them, each true of Python (for example that `'i'` is a
letter and `'1'` is not).  `str.lower` is applied only to decide membership
of an extension in an ASCII set, a decision for which an ASCII model is
exact, so it is modelled concretely.  The pixel values stored by the call
site are computed in `numpy` `uint8` arithmetic, where every binary
operation truncates to 8 bits; `packPixel` models that truncation.
-/

set_option maxRecDepth 8000

namespace ImageConverter

/-- One decoded pixel: three 8-bit channel values, as produced by the
decoder (`numpy` `uint8` entries of `img_array`). -/
structure Rgb where
  r : Fin 256
  g : Fin 256
  b : Fin 256
  deriving DecidableEq

/-- `rgb888_to_rgb565` from `image_converter.py` (line 38):
`((r & 0xF8) << 8) | ((g & 0xFC) << 3) | (b >> 3)`.
Python integers are unbounded, so the function is embedded on `Nat`. -/
def rgb888_to_rgb565 (r g b : Nat) : Nat :=
  ((r &&& 0xF8) <<< 8) ||| ((g &&& 0xFC) <<< 3) ||| (b >>> 3)

/-- The value the converter stores for one decoded pixel (call site,
lines 81-82).  `r, g, b = img_array[y, x]` unpacks `numpy` `uint8` scalars,
so the packer's arithmetic runs in `uint8`: every binary operation result is
truncated to 8 bits.  `&`, `>>` and `|` of 8-bit values already fit in
8 bits, so only the two left shifts truncate: `(r & 0xF8) << 8` wraps to 0
and `(g & 0xFC) << 3` wraps mod 256. -/
def packPixel (p : Rgb) : Nat :=
  (((p.r.val &&& 0xF8) <<< 8) % 256) ||| (((p.g.val &&& 0xFC) <<< 3) % 256)
    ||| (p.b.val >>> 3)

/-- The Unicode-dependent Python string operations the program uses, kept
abstract: `str.isalpha` (line 57) and `str.upper` (lines 71-72, 104-105).
Theorems state only the facts they need about them. -/
structure PyStr where
  isalpha : Char → Bool
  upper : String → String

/-- The ASCII fragment of Python's string semantics: witnesses instantiate
the abstract operations with it (it agrees with Python on every ASCII input
the witnesses use). -/
def asciiPy : PyStr :=
  ⟨Char.isAlpha, String.toUpper⟩

/-- Python's `str.replace old new` for single-character `old`/`new`
(lines 55): replaces every occurrence, character by character. -/
def pyReplaceChar (old new : Char) (s : List Char) : List Char :=
  s.map fun c => if c = old then new else c

/-- Line 55: `stem.replace('-', '_').replace(' ', '_')`. -/
def replaceStem (stem : List Char) : List Char :=
  pyReplaceChar ' ' '_' (pyReplaceChar '-' '_' stem)

/-- Lines 55-58: derive the C variable name from the filename stem, with
Python's Unicode `str.isalpha` abstract in `py`.  Python raises `IndexError`
on `var_name[0]` when the stem is empty (the exception is caught by the
surrounding `try`), modelled as `none`. -/
def deriveVarName (py : PyStr) (stem : List Char) : Option (List Char) :=
  match replaceStem stem with
  | [] => none
  | c :: rest =>
    if ¬ py.isalpha c ∧ c ≠ '_' then some ("img_".data ++ (c :: rest))
    else some (c :: rest)

/-- `SUPPORTED_FORMATS` (line 24): the eligible extensions, leading dot
included, lower case. -/
def SUPPORTED_FORMATS : List (List Char) :=
  [".png".data, ".jpg".data, ".jpeg".data, ".bmp".data, ".gif".data, ".tiff".data]

/-- Python's `str.lower`, modelled at ASCII precision (exact for deciding
membership of an extension in the ASCII set `SUPPORTED_FORMATS`). -/
def pyLowerChar (c : Char) : Char :=
  if 'A' ≤ c ∧ c ≤ 'Z' then Char.ofNat (c.toNat + 32) else c

/-- `str.lower` over a whole string. -/
def lowerStr (s : List Char) : List Char := s.map pyLowerChar

/-- Index of the last `'.'` in a filename, if any (`str.rfind('.')`). -/
def lastDotIdx : List Char → Option Nat
  | [] => none
  | c :: cs =>
    match lastDotIdx cs with
    | some i => some (i + 1)
    | none => if c = '.' then some 0 else none

/-- `pathlib.PurePath.suffix` of a file name: the part from the last dot on,
empty when there is no dot, when the name starts with the only dot (hidden
file), or when the dot is the final character. -/
def fileSuffix (name : List Char) : List Char :=
  match lastDotIdx name with
  | some i => if 0 < i ∧ i < name.length - 1 then name.drop i else []
  | none => []

/-- `pathlib.PurePath.stem`: the name with its suffix removed. -/
def fileStem (name : List Char) : List Char :=
  name.take (name.length - (fileSuffix name).length)

/-- Line 158: `file_path.suffix.lower() in self.SUPPORTED_FORMATS`. -/
def isSupported (name : List Char) : Bool :=
  decide (lowerStr (fileSuffix name) ∈ SUPPORTED_FORMATS)

/-- The guard condition of line 57: true when the leading character of the
replaced stem is neither a letter (by the program's own `isalpha`) nor an
underscore. -/
def needsMarker (py : PyStr) : List Char → Bool
  | [] => false
  | c :: _ => !py.isalpha c && c != '_'

/-- One uppercase hexadecimal digit (`'0'`-`'9'`, `'A'`-`'F'`). -/
def hexDigit (n : Nat) : Char :=
  if n < 10 then Char.ofNat (48 + n) else Char.ofNat (55 + n)

/-- Digit recursion behind `hexDigits`; the fuel argument makes it
structural (fuel `v` suffices for value `v`, as `v / 16 < v`). -/
def hexDigitsAux : Nat → Nat → List Char
  | 0, _ => []
  | fuel + 1, v =>
    if v = 0 then [] else hexDigitsAux fuel (v / 16) ++ [hexDigit (v % 16)]

/-- Uppercase hexadecimal digits of `v`, most significant first; empty for 0. -/
def hexDigits (v : Nat) : List Char :=
  hexDigitsAux v v

/-- Python's format specifier `04X` (line 83): uppercase hexadecimal, left
padded with `'0'` to a minimum width of four characters. -/
def hex4 (v : Nat) : String :=
  ⟨List.replicate (4 - (hexDigits v).length) '0' ++ hexDigits v⟩

/-- Line 83: `f"0x{rgb565:04X}"`. -/
def pixelHex (v : Nat) : String := "0x" ++ hex4 v

/-- Lines 80-83: the formatted pixels of row `y`, left to right. -/
def rowPixels (img : Nat → Nat → Rgb) (w y : Nat) : List String :=
  (List.range w).map fun x => pixelHex (packPixel (img y x))

/-- Lines 85-89: one output line per image row, with a trailing comma on
every row but the last. -/
def rowLine (img : Nat → Nat → Rgb) (w h y : Nat) : String :=
  if y < h - 1 then "    " ++ String.intercalate ", " (rowPixels img w y) ++ ","
  else "    " ++ String.intercalate ", " (rowPixels img w y)

/-- Lines 77-91: all pixel rows in row-major order. -/
def pixelLines (img : Nat → Nat → Rgb) (w h : Nat) : List String :=
  (List.range h).map (rowLine img w h)

/-- Lines 61-74: comment block, boilerplate directives, dimension constants
and the opening of the data array; `var_name.upper()` is the abstract
`py.upper`. -/
def headerLines (py : PyStr) (name varName : String) (w h : Nat) : List String :=
  ["/*",
   " * Generated from: " ++ name,
   " * Image size: " ++ toString w ++ "x" ++ toString h ++ " pixels",
   " * Format: RGB565",
   " */",
   "",
   "#pragma once",
   "#include <stdint.h>",
   "",
   "#define " ++ py.upper varName ++ "_WIDTH  " ++ toString w,
   "#define " ++ py.upper varName ++ "_HEIGHT " ++ toString h,
   "",
   "const uint16_t " ++ varName ++ "_data[" ++ toString (w * h) ++ "] = \x7b"]

/-- Lines 92-106: array closing, the descriptor `typedef` and its instance;
`var_name.upper()` is the abstract `py.upper`. -/
def tailLines (py : PyStr) (varName : String) : List String :=
  ["\x7d;",
   "",
   "typedef struct \x7b",
   "    const uint16_t* data;",
   "    uint16_t width;",
   "    uint16_t height;",
   "\x7d " ++ varName ++ "_t;",
   "",
   "const " ++ varName ++ "_t " ++ varName ++ " = \x7b",
   "    .data = " ++ varName ++ "_data,",
   "    .width = " ++ py.upper varName ++ "_WIDTH,",
   "    .height = " ++ py.upper varName ++ "_HEIGHT",
   "\x7d;"]

/-- The full line list of one generated artifact, in emission order. -/
def cLines (py : PyStr) (name varName : String) (w h : Nat)
    (img : Nat → Nat → Rgb) : List String :=
  headerLines py name varName w h ++ pixelLines img w h ++ tailLines py varName

/-- `image_to_c_array` (lines 40-112) on an already decoded image: derive the
identifier from the stem and assemble the text; `none` models the caught
exception (only possible here through an empty stem). -/
def image_to_c_array (py : PyStr) (name : String) (stem : List Char) (w h : Nat)
    (img : Nat → Nat → Rgb) : Option String :=
  match deriveVarName py stem with
  | none => none
  | some v => some (String.intercalate "\n" (cLines py name ⟨v⟩ w h img))

/-- The characters an uppercase hexadecimal literal may contain. -/
def hexCharset : List Char := "0123456789ABCDEF".data

/-- One file discovered by the walk: its directory chain relative to the
source root, and its final name component. -/
structure SrcFile where
  relDirs : List String
  name : List Char
  deriving DecidableEq

/-- A decoded image as the external decoder hands it over: dimensions and an
8-bit RGB pixel grid. -/
structure Decoded where
  w : Nat
  h : Nat
  pix : Nat → Nat → Rgb

/-- One written artifact: its mirrored directory chain relative to the
output root, its file name, and its full text. -/
structure Artifact where
  relDirs : List String
  fname : List Char
  content : String
  deriving DecidableEq

/-- `relative_path.with_suffix('.h')` (line 125): the name with its extension
replaced by `.h`. -/
def withSuffixH (name : List Char) : List Char :=
  fileStem name ++ ".h".data

/-- The text written for one eligible file, when everything succeeds:
decode (external, modelled as an oracle), generate, then write (explicit
success oracle for the I/O); `none` on decode or write failure
(lines 114-139). -/
def outcomeContent (py : PyStr) (decode : SrcFile → Option Decoded)
    (writeOk : SrcFile → Bool) (f : SrcFile) : Option String :=
  match decode f with
  | none => none
  | some d =>
    match image_to_c_array py ⟨f.name⟩ (fileStem f.name) d.w d.h d.pix with
    | none => none
    | some content => if writeOk f then some content else none

/-- `convert_image_file` (lines 114-139) for one eligible file: on success
the artifact lands at the mirrored relative path with `.h` substituted. -/
def fileOutcome (py : PyStr) (decode : SrcFile → Option Decoded)
    (writeOk : SrcFile → Bool) (f : SrcFile) : Option Artifact :=
  match decode f with
  | none => none
  | some d =>
    match image_to_c_array py ⟨f.name⟩ (fileStem f.name) d.w d.h d.pix with
    | none => none
    | some content =>
      if writeOk f then some ⟨f.relDirs, withSuffixH f.name, content⟩ else none

/-- `scan_and_convert` (lines 141-172): walk the discovered files, convert
the eligible ones, and tally `(converted, errors)` together with the written
artifacts.  The walk order is irrelevant to every claim below. -/
def scan_and_convert (py : PyStr) (decode : SrcFile → Option Decoded)
    (writeOk : SrcFile → Bool) : List SrcFile → Nat × Nat × List Artifact
  | [] => (0, 0, [])
  | f :: fs =>
    let r := scan_and_convert py decode writeOk fs
    if isSupported f.name then
      match fileOutcome py decode writeOk f with
      | some a => (r.1 + 1, r.2.1, a :: r.2.2)
      | none => (r.1, r.2.1 + 1, r.2.2)
    else r

/-- Result of one whole program run (`main`, lines 205-221). -/
inductive RunResult where
  | ok (converted errors : Nat)
  | sourceNotFound
  | unexpectedError
  deriving DecidableEq

/-- The state of the world a run sees: whether the source root exists
(checked by `__init__`, line 30), whether some unhandled failure strikes
during setup or traversal (the generic `except Exception`, line 219), the
discovered files, the decode/write oracles, and the Unicode string
semantics. -/
structure World where
  sourceExists : Bool
  unexpected : Bool
  files : List SrcFile
  decode : SrcFile → Option Decoded
  writeOk : SrcFile → Bool
  py : PyStr

/-- `main` (lines 205-221): construct the converter (raising
`FileNotFoundError` before any traversal when the source root is missing),
run the scan, and report.  The parsed `--verbose` flag (lines 197-201) is
accepted but never read anywhere in the program. -/
def runProgram (verbose : Bool) (w : World) : RunResult × List Artifact :=
  if w.sourceExists = false then (.sourceNotFound, [])
  else if w.unexpected = true then (.unexpectedError, [])
  else
    ((.ok (scan_and_convert w.py w.decode w.writeOk w.files).1
        (scan_and_convert w.py w.decode w.writeOk w.files).2.1),
      (scan_and_convert w.py w.decode w.writeOk w.files).2.2)

/-- The process exit code of a run: `sys.exit(1)` on any error count above
zero and on either exception path, and the implicit 0 otherwise. -/
def exitCode : RunResult → Nat
  | .ok _ e => if 0 < e then 1 else 0
  | .sourceNotFound => 1
  | .unexpectedError => 1

/-- The source-relative path of a file, rendered with `/` separators. -/
def relPathStr (f : SrcFile) : String :=
  String.intercalate "/" (f.relDirs ++ [⟨f.name⟩])

/-- The diagnostic lines printed for one eligible file (lines 111, 117, 134,
138): the announcement, then either the generated-path line or an error
line.  Exception payloads and the configured root prefixes are abstracted;
only the lines' presence and file identification matter here. -/
def fileDiag (py : PyStr) (decode : SrcFile → Option Decoded)
    (writeOk : SrcFile → Bool) (f : SrcFile) : List String :=
  ("Converting: " ++ relPathStr f) ::
    (match fileOutcome py decode writeOk f with
     | some a => ["  -> Generated: " ++ String.intercalate "/" (a.relDirs ++ [⟨a.fname⟩])]
     | none => ["Error processing " ++ relPathStr f])

/-- Per-file diagnostics of the traversal, in discovery order. -/
def scanDiag (py : PyStr) (decode : SrcFile → Option Decoded)
    (writeOk : SrcFile → Bool) : List SrcFile → List String
  | [] => []
  | f :: fs =>
    (if isSupported f.name then fileDiag py decode writeOk f else [])
      ++ scanDiag py decode writeOk fs

/-- All diagnostics a run prints.  `verbose` is a parameter because the
command line accepts it; the program body never consults it. -/
def runDiagnostics (verbose : Bool) (w : World) : List String :=
  if w.sourceExists = false then ["Error: Source directory not found"]
  else if w.unexpected = true then ["Unexpected error"]
  else scanDiag w.py w.decode w.writeOk w.files


/-- Masking an 8-bit value with `0xF8` clears its three low bits. -/
theorem and_248_eq (x : Fin 256) : (x : Nat) &&& 248 = x / 8 * 8 := by
  revert x; decide

/-- Masking an 8-bit value with `0xFC` clears its two low bits. -/
theorem and_252_eq (x : Fin 256) : (x : Nat) &&& 252 = x / 4 * 4 := by
  revert x; decide

/-- Bitwise or of a shifted value with a value that fits entirely below the
shift is addition. -/
theorem shiftLeft_lor_eq_add :
    ∀ (k a b : Nat), b < 2 ^ k → a <<< k ||| b = a * 2 ^ k + b
  | 0, a, b, hb => by
    have hb0 : b = 0 := by omega
    subst hb0
    simp [Nat.shiftLeft_eq]
  | k + 1, a, b, hb => by
    have hpow : (2 : Nat) ^ (k + 1) = 2 ^ k * 2 := Nat.pow_succ 2 k
    have hb2 : b / 2 < 2 ^ k := by omega
    have ih := shiftLeft_lor_eq_add k a (b / 2) hb2
    have hdiv : (a <<< (k + 1) ||| b) / 2 = a <<< k ||| b / 2 := by
      rw [Nat.or_div_two, Nat.shiftLeft_succ, Nat.mul_div_cancel_left _ (by omega : (0:Nat) < 2)]
    have hshift_mod : a <<< (k + 1) % 2 = 0 := by
      rw [Nat.shiftLeft_succ]; exact Nat.mul_mod_right 2 _
    have hmod : (a <<< (k + 1) ||| b) % 2 = b % 2 := by
      rcases Nat.mod_two_eq_zero_or_one b with h | h
      · have : ¬ ((a <<< (k + 1) ||| b) % 2 = 1) := by
          rw [Nat.or_mod_two_eq_one]; omega
        omega
      · have : (a <<< (k + 1) ||| b) % 2 = 1 := by
          rw [Nat.or_mod_two_eq_one]; omega
        omega
    have hsplit := Nat.div_add_mod (a <<< (k + 1) ||| b) 2
    rw [hdiv, ih] at hsplit
    rw [hmod] at hsplit
    have hgoal : a * 2 ^ (k + 1) = a * 2 ^ k * 2 := by
      rw [hpow, Nat.mul_assoc]
    omega

/-- Normal form of the packer on 8-bit inputs: the three truncated channels
occupy disjoint place-value ranges, so the bitwise ors are additions. -/
theorem rgb565_eq_sum (r g b : Nat) (hr : r < 256) (hg : g < 256) (hb : b < 256) :
    rgb888_to_rgb565 r g b = r / 8 * 2048 + g / 4 * 32 + b / 8 := by
  have h248 : r &&& 248 = r / 8 * 8 := and_248_eq ⟨r, hr⟩
  have h252 : g &&& 252 = g / 4 * 4 := and_252_eq ⟨g, hg⟩
  have hbdiv : b >>> 3 = b / 8 := Nat.shiftRight_eq_div_pow b 3
  show ((r &&& 248) <<< 8) ||| ((g &&& 252) <<< 3) ||| (b >>> 3)
      = r / 8 * 2048 + g / 4 * 32 + b / 8
  rw [h248, h252, hbdiv]
  have e1 : (r / 8 * 8) <<< 8 = (r / 8) <<< 11 := by
    rw [Nat.shiftLeft_eq, Nat.shiftLeft_eq]
    have : (2 : Nat) ^ 8 = 256 := by norm_num
    have h11 : (2 : Nat) ^ 11 = 2048 := by norm_num
    rw [this, h11, Nat.mul_assoc]
  have e2 : (g / 4 * 4) <<< 3 = g / 4 * 32 := by
    rw [Nat.shiftLeft_eq]
    have : (2 : Nat) ^ 3 = 8 := by norm_num
    rw [this, Nat.mul_assoc]
  rw [e1, e2]
  have hlt1 : g / 4 * 32 < 2 ^ 11 := by
    have : g / 4 < 64 := by omega
    have h11 : (2 : Nat) ^ 11 = 2048 := by norm_num
    omega
  rw [shiftLeft_lor_eq_add 11 (r / 8) (g / 4 * 32) hlt1]
  have h11 : (2 : Nat) ^ 11 = 2048 := by norm_num
  rw [h11]
  have e3 : r / 8 * 2048 + g / 4 * 32 = (r / 8 * 64 + g / 4) <<< 5 := by
    rw [Nat.shiftLeft_eq]
    have h5 : (2 : Nat) ^ 5 = 32 := by norm_num
    rw [h5]; ring
  have hlt2 : b / 8 < 2 ^ 5 := by
    have h5 : (2 : Nat) ^ 5 = 32 := by norm_num
    omega
  rw [e3, shiftLeft_lor_eq_add 5 (r / 8 * 64 + g / 4) (b / 8) hlt2, Nat.shiftLeft_eq]

/-- The packed value of an 8-bit triple is below `2 ^ 16`. -/
theorem rgb565_lt (r g b : Nat) (hr : r < 256) (hg : g < 256) (hb : b < 256) :
    rgb888_to_rgb565 r g b < 65536 := by
  rw [rgb565_eq_sum r g b hr hg hb]; omega

/-- The call-site packed value in closed form: the red contribution wraps to
zero in `uint8`, the green contribution survives only mod 256. -/
theorem packPixel_eq (p : Rgb) :
    packPixel p = p.g.val / 4 % 8 * 32 + p.b.val / 8 := by
  have hr : ((p.r.val &&& 0xF8) <<< 8) % 256 = 0 := by
    rw [Nat.shiftLeft_eq]
    have h8 : (2 : Nat) ^ 8 = 256 := by norm_num
    rw [h8, Nat.mul_mod_left]
  have hg : ((p.g.val &&& 0xFC) <<< 3) % 256 = p.g.val / 4 % 8 * 32 := by
    have h252 : p.g.val &&& 0xFC = p.g.val / 4 * 4 := and_252_eq p.g
    rw [h252, Nat.shiftLeft_eq]
    have h3 : (2 : Nat) ^ 3 = 8 := by norm_num
    rw [h3]
    have hlt : p.g.val < 256 := p.g.isLt
    omega
  have hb : p.b.val >>> 3 = p.b.val / 8 := Nat.shiftRight_eq_div_pow _ 3
  unfold packPixel
  rw [hr, hg, hb, Nat.zero_or]
  have h32 : p.g.val / 4 % 8 * 32 = (p.g.val / 4 % 8) <<< 5 := by
    rw [Nat.shiftLeft_eq]
  have hblt : p.b.val / 8 < 2 ^ 5 := by
    have hbv := p.b.isLt
    have h5 : (2 : Nat) ^ 5 = 32 := by norm_num
    omega
  rw [h32, shiftLeft_lor_eq_add 5 _ _ hblt, Nat.shiftLeft_eq]

/-- Every value the call site stores fits in 8 bits: the upper byte of the
intended RGB565 encoding is unconditionally lost. -/
theorem packPixel_lt (p : Rgb) : packPixel p < 256 := by
  rw [packPixel_eq]
  have hb := p.b.isLt
  have hg := p.g.isLt
  omega

/-- Bit fields of the packed value: top 5 bits from `r`, middle 6 from `g`,
low 5 from `b`. -/
theorem rgb565_fields (r g b : Nat) (hr : r < 256) (hg : g < 256) (hb : b < 256) :
    rgb888_to_rgb565 r g b >>> 11 = r >>> 3
    ∧ (rgb888_to_rgb565 r g b >>> 5) &&& 63 = g >>> 2
    ∧ rgb888_to_rgb565 r g b &&& 31 = b >>> 3 := by
  have hsum := rgb565_eq_sum r g b hr hg hb
  have h63 : (63 : Nat) = 2 ^ 6 - 1 := by norm_num
  have h31 : (31 : Nat) = 2 ^ 5 - 1 := by norm_num
  refine ⟨?_, ?_, ?_⟩
  · rw [Nat.shiftRight_eq_div_pow, Nat.shiftRight_eq_div_pow, hsum]
    have h11 : (2 : Nat) ^ 11 = 2048 := by norm_num
    have h3 : (2 : Nat) ^ 3 = 8 := by norm_num
    rw [h11, h3]
    omega
  · rw [Nat.shiftRight_eq_div_pow, Nat.shiftRight_eq_div_pow, h63,
      Nat.and_pow_two_sub_one_eq_mod, hsum]
    have h5 : (2 : Nat) ^ 5 = 32 := by norm_num
    have h6 : (2 : Nat) ^ 6 = 64 := by norm_num
    have h2 : (2 : Nat) ^ 2 = 4 := by norm_num
    rw [h5, h6, h2]
    omega
  · rw [Nat.shiftRight_eq_div_pow, h31, Nat.and_pow_two_sub_one_eq_mod, hsum]
    have h5 : (2 : Nat) ^ 5 = 32 := by norm_num
    have h3 : (2 : Nat) ^ 3 = 8 := by norm_num
    rw [h5, h3]
    omega

/-- The two successive single-character replacements are one map. -/
theorem replaceStem_eq_map (s : List Char) :
    replaceStem s = s.map (fun c => if c = '-' ∨ c = ' ' then '_' else c) := by
  unfold replaceStem pyReplaceChar
  rw [List.map_map]
  apply List.map_congr_left
  intro c _
  simp only [Function.comp_apply]
  by_cases h1 : c = '-'
  · subst h1; decide
  · by_cases h2 : c = ' '
    · subst h2; decide
    · simp [h1, h2]

/-- No hyphen and no space survives the replacement. -/
theorem mem_replaceStem (s : List Char) :
    ∀ c ∈ replaceStem s, c ≠ '-' ∧ c ≠ ' ' := by
  intro c hc
  rw [replaceStem_eq_map] at hc
  rcases List.mem_map.mp hc with ⟨d, _, hd⟩
  by_cases h : d = '-' ∨ d = ' '
  · rw [if_pos h] at hd; subst hd; exact ⟨by decide, by decide⟩
  · rw [if_neg h] at hd; subst hd; push_neg at h; exact h

/-- The replacement fixes any string free of hyphens and spaces. -/
theorem replaceStem_of_clean (s : List Char) (h : ∀ c ∈ s, c ≠ '-' ∧ c ≠ ' ') :
    replaceStem s = s := by
  rw [replaceStem_eq_map]
  have hcong : ∀ c ∈ s, (if c = '-' ∨ c = ' ' then '_' else c) = c := by
    intro c hc
    rcases h c hc with ⟨h1, h2⟩
    rw [if_neg (by tauto)]
  rw [List.map_congr_left hcong]
  exact List.map_id s

/-- Unfolding `deriveVarName` on a known replacement result. -/
theorem deriveVarName_eq_of (py : PyStr) (s : List Char) (c : Char) (rest : List Char)
    (h : replaceStem s = c :: rest) :
    deriveVarName py s =
      if ¬ py.isalpha c ∧ c ≠ '_' then some ("img_".data ++ (c :: rest))
      else some (c :: rest) := by
  unfold deriveVarName
  rw [h]

/-- Derivation fails exactly on the empty stem. -/
theorem deriveVarName_none_iff (py : PyStr) (s : List Char) :
    deriveVarName py s = none ↔ s = [] := by
  constructor
  · intro h
    cases hrep : replaceStem s with
    | nil =>
      have := congrArg List.length hrep
      rw [replaceStem_eq_map, List.length_map] at this
      exact List.length_eq_zero.mp this
    | cons c rest =>
      rw [deriveVarName_eq_of py s c rest hrep] at h
      by_cases hc : ¬ py.isalpha c ∧ c ≠ '_'
      · rw [if_pos hc] at h; cases h
      · rw [if_neg hc] at h; cases h
  · intro h; subst h; rfl

/-- Derivation is idempotent: its output is a fixed point.  The one fact
needed of the program's `isalpha` is that the marker's own first character
`'i'` is a letter — true of Python. -/
theorem deriveVarName_idem (py : PyStr) (hi : py.isalpha 'i' = true)
    (s v : List Char) (h : deriveVarName py s = some v) :
    deriveVarName py v = some v := by
  have himg : ∀ d ∈ "img_".data, d ≠ '-' ∧ d ≠ ' ' := by
    intro d hd
    have : d = 'i' ∨ d = 'm' ∨ d = 'g' ∨ d = '_' := by
      have he : "img_".data = ['i', 'm', 'g', '_'] := rfl
      rw [he] at hd
      simpa using hd
    rcases this with h' | h' | h' | h' <;> subst h' <;> exact ⟨by decide, by decide⟩
  cases hrep : replaceStem s with
  | nil =>
    unfold deriveVarName at h
    rw [hrep] at h
    cases h
  | cons c rest =>
    rw [deriveVarName_eq_of py s c rest hrep] at h
    have hcleanTail : ∀ d ∈ c :: rest, d ≠ '-' ∧ d ≠ ' ' := by
      intro d hd
      exact mem_replaceStem s d (hrep ▸ hd)
    by_cases hc : ¬ py.isalpha c ∧ c ≠ '_'
    · rw [if_pos hc] at h
      have hv : v = "img_".data ++ (c :: rest) := by
        injection h with h'; exact h'.symm
      have hclean : ∀ d ∈ v, d ≠ '-' ∧ d ≠ ' ' := by
        intro d hd
        rw [hv] at hd
        rcases List.mem_append.mp hd with h' | h'
        · exact himg d h'
        · exact hcleanTail d h'
      have hfix : replaceStem v = v := replaceStem_of_clean v hclean
      have hvcons : replaceStem v = 'i' :: ('m' :: 'g' :: '_' :: c :: rest) := by
        rw [hfix, hv]; rfl
      rw [deriveVarName_eq_of py v _ _ hvcons, if_neg (by simp [hi]), hv]
      rfl
    · rw [if_neg hc] at h
      have hv : v = c :: rest := by injection h with h'; exact h'.symm
      have hfix : replaceStem v = v := replaceStem_of_clean v (hv ▸ hcleanTail)
      rw [deriveVarName_eq_of py v c rest (by rw [hfix, hv]), if_neg hc, hv]

/-- Unfolding `fileSuffix` when the last-dot index is known. -/
theorem fileSuffix_eq_of_idx (name : List Char) (i : Nat)
    (hidx : lastDotIdx name = some i) :
    fileSuffix name = if 0 < i ∧ i < name.length - 1 then name.drop i else [] := by
  unfold fileSuffix
  rw [hidx]

/-- Unfolding `fileSuffix` when the name has no dot. -/
theorem fileSuffix_eq_of_none (name : List Char) (hidx : lastDotIdx name = none) :
    fileSuffix name = [] := by
  unfold fileSuffix
  rw [hidx]

/-- An eligible file's suffix comes from a dot at a proper position. -/
theorem suffix_spec_of_supported (name : List Char) (h : isSupported name = true) :
    ∃ i, lastDotIdx name = some i ∧ 0 < i ∧ i < name.length - 1
      ∧ fileSuffix name = name.drop i := by
  have hmem : lowerStr (fileSuffix name) ∈ SUPPORTED_FORMATS := by
    have hh := h
    unfold isSupported at hh
    exact of_decide_eq_true hh
  have hne : fileSuffix name ≠ [] := by
    intro h0
    rw [h0] at hmem
    revert hmem
    decide
  cases hidx : lastDotIdx name with
  | none => exact absurd (fileSuffix_eq_of_none name hidx) hne
  | some i =>
    by_cases hcond : 0 < i ∧ i < name.length - 1
    · refine ⟨i, rfl, hcond.1, hcond.2, ?_⟩
      rw [fileSuffix_eq_of_idx name i hidx, if_pos hcond]
    · exact absurd (by rw [fileSuffix_eq_of_idx name i hidx, if_neg hcond]) hne

/-- The stem of an eligible file is never empty (so the identifier deriver is
total on every stem it is actually applied to). -/
theorem stem_ne_nil_of_supported (name : List Char) (h : isSupported name = true) :
    fileStem name ≠ [] := by
  obtain ⟨i, _, hi0, hilen, hsfx⟩ := suffix_spec_of_supported name h
  unfold fileStem
  rw [hsfx, List.length_drop]
  have hlen : name.length - (name.length - i) = i := by omega
  rw [hlen]
  intro h0
  have hl := congrArg List.length h0
  rw [List.length_take] at hl
  simp only [List.length_nil] at hl
  omega

/-- Splitting a name at its suffix is lossless: `stem ++ suffix = name`. -/
theorem stem_append_suffix (name : List Char) :
    fileStem name ++ fileSuffix name = name := by
  unfold fileStem
  cases hidx : lastDotIdx name with
  | none =>
    rw [fileSuffix_eq_of_none name hidx]
    simp [List.take_length]
  | some i =>
    by_cases hcond : 0 < i ∧ i < name.length - 1
    · rw [fileSuffix_eq_of_idx name i hidx, if_pos hcond, List.length_drop]
      have hlen : name.length - (name.length - i) = i := by omega
      rw [hlen]
      exact List.take_append_drop i name
    · rw [fileSuffix_eq_of_idx name i hidx, if_neg hcond]
      simp [List.take_length]

/-- `hexDigitsAux` ignores its fuel at value zero. -/
theorem hexDigitsAux_zero (fuel : Nat) : hexDigitsAux fuel 0 = [] := by
  cases fuel with
  | zero => rfl
  | succ n => rfl

/-- Any sufficient fuel computes the same digits as the canonical fuel. -/
theorem hexDigitsAux_eq_hexDigits (v : Nat) :
    ∀ f : Nat, v ≤ f → hexDigitsAux f v = hexDigits v := by
  induction v using Nat.strong_induction_on with
  | _ v ih =>
    intro f hf
    rcases v with _ | m
    · rw [hexDigitsAux_zero]
      rfl
    · rcases f with _ | k
      · exact absurd hf (by omega)
      · have hq : (m + 1) / 16 < m + 1 := Nat.div_lt_self (by omega) (by omega)
        show (if m + 1 = 0 then []
            else hexDigitsAux k ((m + 1) / 16) ++ [hexDigit ((m + 1) % 16)])
          = hexDigits (m + 1)
        rw [if_neg (by omega), ih ((m + 1) / 16) hq k (by omega)]
        show _ = (if m + 1 = 0 then []
            else hexDigitsAux m ((m + 1) / 16) ++ [hexDigit ((m + 1) % 16)])
        rw [if_neg (by omega), ih ((m + 1) / 16) hq m (by omega)]

/-- `hexDigits` at zero. -/
theorem hexDigits_zero : hexDigits 0 = [] := rfl

/-- `hexDigits` at a positive value. -/
theorem hexDigits_of_ne (v : Nat) (h : v ≠ 0) :
    hexDigits v = hexDigits (v / 16) ++ [hexDigit (v % 16)] := by
  rcases v with _ | m
  · exact absurd rfl h
  · show (if m + 1 = 0 then []
        else hexDigitsAux m ((m + 1) / 16) ++ [hexDigit ((m + 1) % 16)])
      = hexDigits ((m + 1) / 16) ++ [hexDigit ((m + 1) % 16)]
    have hq : (m + 1) / 16 < m + 1 := Nat.div_lt_self (by omega) (by omega)
    rw [if_neg (by omega), hexDigitsAux_eq_hexDigits ((m + 1) / 16) m (by omega)]

/-- A single digit is drawn from the uppercase hexadecimal charset. -/
theorem hexDigit_mem (n : Nat) (h : n < 16) : hexDigit n ∈ hexCharset := by
  interval_cases n <;> decide

/-- A value below `16 ^ k` prints with at most `k` digits. -/
theorem hexDigits_length_le : ∀ k v : Nat, v < 16 ^ k → (hexDigits v).length ≤ k := by
  intro k
  induction k with
  | zero =>
    intro v hv
    have hv0 : v = 0 := by simpa using hv
    subst hv0
    rw [hexDigits_zero]
    exact Nat.le_refl 0
  | succ j ih =>
    intro v hv
    by_cases h0 : v = 0
    · subst h0
      rw [hexDigits_zero]
      exact Nat.zero_le _
    · rw [hexDigits_of_ne v h0, List.length_append]
      have hpow : (16 : Nat) ^ (j + 1) = 16 ^ j * 16 := Nat.pow_succ 16 j
      have hdiv : v / 16 < 16 ^ j := by omega
      have hlen := ih (v / 16) hdiv
      simp only [List.length_cons, List.length_nil]
      omega

/-- Every printed digit is an uppercase hexadecimal character. -/
theorem hexDigits_mem (v : Nat) : ∀ c ∈ hexDigits v, c ∈ hexCharset := by
  induction v using Nat.strong_induction_on with
  | _ v ih =>
    by_cases h0 : v = 0
    · subst h0
      rw [hexDigits_zero]
      intro c hc
      cases hc
    · rw [hexDigits_of_ne v h0]
      intro c hc
      rcases List.mem_append.mp hc with hc' | hc'
      · exact ih (v / 16) (Nat.div_lt_self (by omega) (by omega)) c hc'
      · have he : c = hexDigit (v % 16) := by simpa using hc'
        subst he
        exact hexDigit_mem _ (Nat.mod_lt v (by omega))

/-- `hex4` of a 16-bit value is exactly four uppercase hexadecimal digits
(zero padded on the left). -/
theorem hex4_spec (v : Nat) (hv : v < 65536) :
    (hex4 v).data.length = 4 ∧ ∀ c ∈ (hex4 v).data, c ∈ hexCharset := by
  have hlen : (hexDigits v).length ≤ 4 := hexDigits_length_le 4 v (by omega)
  constructor
  · show (List.replicate (4 - (hexDigits v).length) '0' ++ hexDigits v).length = 4
    rw [List.length_append, List.length_replicate]
    omega
  · show ∀ c ∈ List.replicate (4 - (hexDigits v).length) '0' ++ hexDigits v,
      c ∈ hexCharset
    intro c hc
    rcases List.mem_append.mp hc with hc' | hc'
    · have : c = '0' := List.eq_of_mem_replicate hc'
      subst this
      decide
    · exact hexDigits_mem v c hc'

/-- Concatenating `h` mapped rows of width `w` enumerates the row-major
indices `0, …, h*w - 1`: entry `i` comes from row `i / w`, column `i % w`. -/
theorem flatMap_range_map {α : Type} (g : Nat → Nat → α) (w : Nat) (hw : 0 < w) :
    ∀ h : Nat, (List.range h).flatMap (fun y => (List.range w).map (g y))
      = (List.range (h * w)).map (fun i => g (i / w) (i % w)) := by
  intro h
  induction h with
  | zero => simp
  | succ n ih =>
    rw [List.range_succ, List.flatMap_append, ih, List.flatMap_singleton,
      Nat.succ_mul, List.range_add, List.map_append, List.map_map]
    congr 1
    apply List.map_congr_left
    intro x hx
    have hxw : x < w := List.mem_range.mp hx
    simp only [Function.comp_apply]
    have hdiv : (n * w + x) / w = n := by
      rw [Nat.mul_comm n w, Nat.mul_add_div hw, Nat.div_eq_of_lt hxw]
      omega
    have hmod : (n * w + x) % w = x := by
      rw [Nat.mul_comm n w, Nat.mul_add_mod]
      exact Nat.mod_eq_of_lt hxw
    rw [hdiv, hmod]

/-- An artifact's path components are the source file's, with the suffix
replaced. -/
theorem fileOutcome_eq_map (py : PyStr) (decode : SrcFile → Option Decoded)
    (writeOk : SrcFile → Bool) (f : SrcFile) :
    fileOutcome py decode writeOk f
      = Option.map (fun c => Artifact.mk f.relDirs (withSuffixH f.name) c)
          (outcomeContent py decode writeOk f) := by
  unfold fileOutcome outcomeContent
  cases decode f with
  | none => rfl
  | some d =>
    dsimp only
    cases image_to_c_array py ⟨f.name⟩ (fileStem f.name) d.w d.h d.pix with
    | none => rfl
    | some content =>
      by_cases hw : writeOk f <;> simp [hw]

/-- Scan unfolding: ineligible head. -/
theorem scan_cons_skip (py : PyStr) (decode : SrcFile → Option Decoded)
    (writeOk : SrcFile → Bool) (f : SrcFile) (fs : List SrcFile)
    (hs : isSupported f.name = false) :
    scan_and_convert py decode writeOk (f :: fs)
      = scan_and_convert py decode writeOk fs := by
  rw [scan_and_convert, hs]
  simp

/-- Scan unfolding: eligible head that converts. -/
theorem scan_cons_ok (py : PyStr) (decode : SrcFile → Option Decoded)
    (writeOk : SrcFile → Bool) (f : SrcFile) (fs : List SrcFile)
    (hs : isSupported f.name = true)
    (a : Artifact) (ha : fileOutcome py decode writeOk f = some a) :
    scan_and_convert py decode writeOk (f :: fs)
      = ((scan_and_convert py decode writeOk fs).1 + 1,
         (scan_and_convert py decode writeOk fs).2.1,
         a :: (scan_and_convert py decode writeOk fs).2.2) := by
  rw [scan_and_convert, hs, ha]
  rfl

/-- Scan unfolding: eligible head that fails to decode or write. -/
theorem scan_cons_err (py : PyStr) (decode : SrcFile → Option Decoded)
    (writeOk : SrcFile → Bool) (f : SrcFile) (fs : List SrcFile)
    (hs : isSupported f.name = true)
    (ha : fileOutcome py decode writeOk f = none) :
    scan_and_convert py decode writeOk (f :: fs)
      = ((scan_and_convert py decode writeOk fs).1,
         (scan_and_convert py decode writeOk fs).2.1 + 1,
         (scan_and_convert py decode writeOk fs).2.2) := by
  rw [scan_and_convert, hs, ha]
  rfl

end ImageConverter

open ImageConverter

/-- **C3** — identifier derivation.  The program's Unicode `str.isalpha` is
the abstract `py.isalpha`; the only facts assumed of it are true of Python:
`'i'` and `'m'` are letters and `'1'` is not.  On every (non-empty) filename
stem the derivation is a pure total function computing: replace each hyphen
and space by an underscore, leave all other characters unchanged, then
prepend the fixed marker when the first character is neither a letter (by
the program's `isalpha`) nor an underscore; it is idempotent, `"my-icon"`
maps to `"my_icon"`, `"1icon"` gains a valid leading character, `"icon"` is
unchanged; stems of eligible files are never empty, so the non-emptiness
hypothesis covers the whole actual domain. -/
theorem C3_identifier_derivation (py : PyStr) (stem : List Char) (hne : stem ≠ [])
    (hi : py.isalpha 'i' = true) :
    (∃ v, deriveVarName py stem = some v
      ∧ v = (if needsMarker py (replaceStem stem) = true
             then "img_".data ++ replaceStem stem else replaceStem stem)
      ∧ deriveVarName py v = some v)
    ∧ replaceStem stem = stem.map (fun c => if c = '-' ∨ c = ' ' then '_' else c)
    ∧ (py.isalpha 'm' = true →
        deriveVarName py "my-icon".data = some "my_icon".data)
    ∧ (py.isalpha '1' = false →
        ∃ c rest, deriveVarName py "1icon".data = some (c :: rest)
          ∧ py.isalpha c = true)
    ∧ deriveVarName py "icon".data = some "icon".data
    ∧ (∀ name : List Char, isSupported name = true → fileStem name ≠ []) := by
  have hmyicon : replaceStem "my-icon".data = 'm' :: "y_icon".data := by decide
  have h1icon : replaceStem "1icon".data = '1' :: "icon".data := by decide
  have hicon : replaceStem "icon".data = 'i' :: "con".data := by decide
  refine ⟨?_, replaceStem_eq_map stem, ?_, ?_, ?_,
    fun name h => stem_ne_nil_of_supported name h⟩
  · cases hrep : replaceStem stem with
    | nil =>
      exfalso
      apply hne
      have hl := congrArg List.length hrep
      rw [replaceStem_eq_map, List.length_map] at hl
      exact List.length_eq_zero.mp hl
    | cons c rest =>
      by_cases hc : ¬ py.isalpha c ∧ c ≠ '_'
      · have hder : deriveVarName py stem = some ("img_".data ++ (c :: rest)) := by
          rw [deriveVarName_eq_of py stem c rest hrep, if_pos hc]
        refine ⟨"img_".data ++ (c :: rest), hder, ?_,
          deriveVarName_idem py hi stem _ hder⟩
        have hm : needsMarker py (c :: rest) = true := by
          rcases hc with ⟨h1, h2⟩
          simp only [needsMarker, Bool.and_eq_true, Bool.not_eq_true']
          exact ⟨by revert h1; cases py.isalpha c <;> simp, by simpa using h2⟩
        rw [hm, if_pos rfl]
      · have hder : deriveVarName py stem = some (c :: rest) := by
          rw [deriveVarName_eq_of py stem c rest hrep, if_neg hc]
        refine ⟨c :: rest, hder, ?_, deriveVarName_idem py hi stem _ hder⟩
        have hm : needsMarker py (c :: rest) = false := by
          simp only [needsMarker, Bool.and_eq_false_iff, Bool.not_eq_true',
            Bool.not_eq_false']
          by_cases ha : py.isalpha c = true
          · exact Or.inl ha
          · refine Or.inr ?_
            have h2 : c = '_' := by
              by_contra h3
              exact hc ⟨by simpa using ha, h3⟩
            simp [h2]
        rw [hm]
        simp
  · intro hm
    rw [deriveVarName_eq_of py "my-icon".data 'm' "y_icon".data hmyicon,
      if_neg (by simp [hm])]
  · intro h1
    refine ⟨'i', "mg_1icon".data, ?_, hi⟩
    rw [deriveVarName_eq_of py "1icon".data '1' "icon".data h1icon,
      if_pos ⟨by simp [h1], by decide⟩]
    rfl
  · rw [deriveVarName_eq_of py "icon".data 'i' "con".data hicon,
      if_neg (by simp [hi])]

/-- Witness for C3 at the concrete stem `"my-icon"`, with the ASCII
instantiation of the abstract string semantics. -/
theorem C3_identifier_derivation_witness :
    deriveVarName asciiPy "my-icon".data = some "my_icon".data :=
  (C3_identifier_derivation asciiPy "my-icon".data (by decide)
    (by decide)).2.2.1 (by decide)

/-- **C10** — the fixed marker is the literal string `"img_"`: whenever the
replaced stem starts with a character that is neither a letter (by the
program's own `isalpha`) nor an underscore, the derived identifier is
exactly `"img_"` followed by the replaced stem; in particular `"1icon"`
derives to `"img_1icon"`. -/
theorem C10_marker_is_img (py : PyStr) (stem : List Char) (c : Char)
    (rest : List Char) (h : replaceStem stem = c :: rest)
    (hc1 : py.isalpha c = false) (hc2 : c ≠ '_') :
    deriveVarName py stem = some ("img_".data ++ (c :: rest))
    ∧ "img_".data = ['i', 'm', 'g', '_']
    ∧ (py.isalpha '1' = false →
        deriveVarName py "1icon".data = some "img_1icon".data) := by
  refine ⟨?_, rfl, ?_⟩
  · rw [deriveVarName_eq_of py stem c rest h, if_pos ⟨by simp [hc1], hc2⟩]
  · intro h1
    have h1icon : replaceStem "1icon".data = '1' :: "icon".data := by decide
    rw [deriveVarName_eq_of py "1icon".data '1' "icon".data h1icon,
      if_pos ⟨by simp [h1], by decide⟩]
    rfl

/-- Witness for C10 at the concrete stem `"1icon"`, with the ASCII
instantiation of the abstract string semantics. -/
theorem C10_marker_is_img_witness :
    deriveVarName asciiPy "1icon".data = some ("img_".data ++ ('1' :: "icon".data)) :=
  (C10_marker_is_img asciiPy "1icon".data '1' "icon".data (by decide) (by decide)
    (by decide)).1

/-- **C2** — artifact structure, and the value bug it inherits.  For
positive dimensions the generated line list is, in order: the provenance
comment naming source file, dimensions and format; the `#pragma once` guard
and include; the two `#define` constants named `upper(id)_WIDTH` /
`upper(id)_HEIGHT` (the program's own `str.upper`, abstract here) with
values `w` and `h`; the `id_data` array declared with length `w*h` whose
initializer holds exactly `w*h` pixel values as uppercase 4-hex-digit
zero-padded literals in row-major order, one image row per line with a
trailing comma on every row but the last; the `id_t` aggregate with a data
pointer and two `uint16_t` dimensions; and the `id` instance referencing
array and constants.  The pixel values, however, are the call site's
`uint8`-wrapped values, not the claimed RGB565 encodings: the final
conjuncts exhibit the divergence — a pure-red pixel is emitted as
`"0x0000"` where the claim requires `"0xF800"`. -/
theorem C2_artifact_structure (py : PyStr) (name varName : String) (w h : Nat)
    (img : Nat → Nat → Rgb) (hw : 0 < w) (hh : 0 < h) :
    cLines py name varName w h img
      = headerLines py name varName w h ++ pixelLines img w h ++ tailLines py varName
    ∧ headerLines py name varName w h =
        ["/*",
         " * Generated from: " ++ name,
         " * Image size: " ++ toString w ++ "x" ++ toString h ++ " pixels",
         " * Format: RGB565",
         " */",
         "",
         "#pragma once",
         "#include <stdint.h>",
         "",
         "#define " ++ py.upper varName ++ "_WIDTH  " ++ toString w,
         "#define " ++ py.upper varName ++ "_HEIGHT " ++ toString h,
         "",
         "const uint16_t " ++ varName ++ "_data[" ++ toString (w * h) ++ "] = \x7b"]
    ∧ tailLines py varName =
        ["\x7d;",
         "",
         "typedef struct \x7b",
         "    const uint16_t* data;",
         "    uint16_t width;",
         "    uint16_t height;",
         "\x7d " ++ varName ++ "_t;",
         "",
         "const " ++ varName ++ "_t " ++ varName ++ " = \x7b",
         "    .data = " ++ varName ++ "_data,",
         "    .width = " ++ py.upper varName ++ "_WIDTH,",
         "    .height = " ++ py.upper varName ++ "_HEIGHT",
         "\x7d;"]
    ∧ (pixelLines img w h).length = h
    ∧ (∀ y : Nat, (rowPixels img w y).length = w)
    ∧ (List.range h).flatMap (rowPixels img w)
        = (List.range (w * h)).map (fun i => pixelHex (packPixel (img (i / w) (i % w))))
    ∧ ((List.range h).flatMap (rowPixels img w)).length = w * h
    ∧ (∀ y x : Nat, pixelHex (packPixel (img y x)) = "0x" ++ hex4 (packPixel (img y x))
        ∧ (hex4 (packPixel (img y x))).data.length = 4
        ∧ ∀ c ∈ (hex4 (packPixel (img y x))).data, c ∈ hexCharset)
    ∧ (∀ y : Nat, y < h - 1 →
        (pixelLines img w h)[y]? =
          some ("    " ++ String.intercalate ", " (rowPixels img w y) ++ ","))
    ∧ (pixelLines img w h)[h - 1]? =
        some ("    " ++ String.intercalate ", " (rowPixels img w (h - 1)))
    ∧ rowPixels (fun _ _ => (⟨255, 0, 0⟩ : Rgb)) 1 0 = ["0x0000"]
    ∧ pixelHex (rgb888_to_rgb565 255 0 0) = "0xF800"
    ∧ rowPixels (fun _ _ => (⟨255, 0, 0⟩ : Rgb)) 1 0
        ≠ [pixelHex (rgb888_to_rgb565 255 0 0)] := by
  have hflat : (List.range h).flatMap (rowPixels img w)
      = (List.range (w * h)).map (fun i => pixelHex (packPixel (img (i / w) (i % w)))) := by
    rw [Nat.mul_comm w h]
    exact flatMap_range_map (fun y x => pixelHex (packPixel (img y x))) w hw h
  refine ⟨rfl, rfl, rfl, by simp [pixelLines], fun y => by simp [rowPixels], hflat,
    ?_, ?_, ?_, ?_, by decide, by decide, by decide⟩
  · rw [hflat, List.length_map, List.length_range]
  · intro y x
    have hlt : packPixel (img y x) < 65536 := by
      have := packPixel_lt (img y x)
      omega
    exact ⟨rfl, (hex4_spec _ hlt).1, (hex4_spec _ hlt).2⟩
  · intro y hy
    have hyh : y < h := by omega
    unfold pixelLines
    rw [List.getElem?_map, List.getElem?_range hyh, Option.map_some']
    unfold rowLine
    rw [if_pos hy]
  · have hyh : h - 1 < h := by omega
    unfold pixelLines
    rw [List.getElem?_map, List.getElem?_range hyh, Option.map_some']
    unfold rowLine
    rw [if_neg (by omega : ¬ h - 1 < h - 1)]

/-- Witness for C2 on a concrete 2×2 image, with the ASCII instantiation of
the abstract string semantics. -/
theorem C2_artifact_structure_witness :
    (pixelLines (fun _ _ => (⟨1, 2, 3⟩ : Rgb)) 2 2).length = 2 :=
  (C2_artifact_structure asciiPy "a.png" "a" 2 2 (fun _ _ => (⟨1, 2, 3⟩ : Rgb))
    (by decide) (by decide)).2.2.2.1

/-- **C8** — generation is deterministic: the artifact text depends only on
the source name, the stem, the dimensions and the pixel contents of the
decoded image, so two runs over an unchanged decoded input produce
byte-identical text. -/
theorem C8_generation_deterministic (py : PyStr) (name : String) (stem : List Char)
    (varName : String) (w h : Nat) (p1 p2 : Nat → Nat → Rgb)
    (hagree : ∀ y, y < h → ∀ x, x < w → p1 y x = p2 y x) :
    cLines py name varName w h p1 = cLines py name varName w h p2
    ∧ image_to_c_array py name stem w h p1 = image_to_c_array py name stem w h p2 := by
  have hrow : ∀ y, y < h → rowPixels p1 w y = rowPixels p2 w y := by
    intro y hy
    apply List.map_congr_left
    intro x hx
    rw [hagree y hy x (List.mem_range.mp hx)]
  have hpix : pixelLines p1 w h = pixelLines p2 w h := by
    apply List.map_congr_left
    intro y hy
    unfold rowLine
    rw [hrow y (List.mem_range.mp hy)]
  have hcl : ∀ vn : String, cLines py name vn w h p1 = cLines py name vn w h p2 := by
    intro vn
    unfold cLines
    rw [hpix]
  refine ⟨hcl varName, ?_⟩
  unfold image_to_c_array
  cases deriveVarName py stem with
  | none => rfl
  | some v =>
    show some (String.intercalate "\n" (cLines py name ⟨v⟩ w h p1))
        = some (String.intercalate "\n" (cLines py name ⟨v⟩ w h p2))
    rw [hcl ⟨v⟩]

/-- Witness for C8: a pixel function and a variant that differs only outside
the 2×2 image domain generate identical artifacts. -/
theorem C8_generation_deterministic_witness :
    cLines asciiPy "a.png" "a" 2 2 (fun _ _ => (⟨1, 2, 3⟩ : Rgb))
      = cLines asciiPy "a.png" "a" 2 2
          (fun y x => if y < 2 ∧ x < 2 then (⟨1, 2, 3⟩ : Rgb) else ⟨4, 5, 6⟩) :=
  (C8_generation_deterministic asciiPy "a.png" "a".data "a" 2 2 _ _
    (fun y hy x hx => by rw [if_pos (⟨hy, hx⟩ : y < 2 ∧ x < 2)])).1

/-- **C1** (code bug) — the Pixel Packer's claim fails at its call site.
On Python ints `rgb888_to_rgb565` is bit-exact RGB565 (first conjunct:
`(255,0,0) ↦ 0xF800`).  At the call site (lines 81-82), however, `r`, `g`,
`b` are `numpy` `uint8` scalars, so the arithmetic wraps: the stored value
for pure red is `0x0000`, not `0xF800`; in general the stored value is
`(g / 4 % 8) * 32 + b / 8`, always below 256 — the red channel and the top
three green bits are destroyed, contradicting the program's own
documentation ("Convert RGB888 to RGB565") and the `Format: RGB565` line it
writes into every artifact. -/
theorem C1_pixel_packer_bug :
    rgb888_to_rgb565 255 0 0 = 0xF800
    ∧ packPixel ⟨255, 0, 0⟩ = 0x0000
    ∧ packPixel ⟨255, 0, 0⟩ ≠ rgb888_to_rgb565 255 0 0
    ∧ packPixel ⟨0, 255, 0⟩ = 0x00E0
    ∧ packPixel ⟨0, 255, 0⟩ ≠ rgb888_to_rgb565 0 255 0
    ∧ packPixel ⟨255, 255, 255⟩ = 0x00FF
    ∧ (∀ p : Rgb, packPixel p = p.g.val / 4 % 8 * 32 + p.b.val / 8)
    ∧ (∀ p : Rgb, packPixel p < 256) := by
  refine ⟨by decide, by decide, by decide, by decide, by decide, by decide,
    fun p => packPixel_eq p, fun p => packPixel_lt p⟩


/-- Every artifact of a run comes from an eligible discovered file whose
conversion succeeded. -/
theorem scan_artifacts_from (py : PyStr) (decode : SrcFile → Option Decoded)
    (writeOk : SrcFile → Bool) :
    ∀ files : List SrcFile, ∀ a ∈ (scan_and_convert py decode writeOk files).2.2,
      ∃ f ∈ files, isSupported f.name = true ∧ fileOutcome py decode writeOk f = some a := by
  intro files
  induction files with
  | nil =>
    intro a ha
    simp [scan_and_convert] at ha
  | cons f fs ih =>
    intro a ha
    cases hs : isSupported f.name with
    | false =>
      rw [scan_cons_skip py decode writeOk f fs hs] at ha
      obtain ⟨f', hf', h1, h2⟩ := ih a ha
      exact ⟨f', List.mem_cons_of_mem f hf', h1, h2⟩
    | true =>
      cases ho : fileOutcome py decode writeOk f with
      | none =>
        rw [scan_cons_err py decode writeOk f fs hs ho] at ha
        obtain ⟨f', hf', h1, h2⟩ := ih a ha
        exact ⟨f', List.mem_cons_of_mem f hf', h1, h2⟩
      | some a0 =>
        rw [scan_cons_ok py decode writeOk f fs hs a0 ho] at ha
        rcases List.mem_cons.mp ha with h | h
        · subst h
          exact ⟨f, List.mem_cons_self f fs, hs, ho⟩
        · obtain ⟨f', hf', h1, h2⟩ := ih a h
          exact ⟨f', List.mem_cons_of_mem f hf', h1, h2⟩

/-- **C4** — mirrored output tree.  Every written artifact sits at exactly
the source file's relative path with the extension replaced by `.h`
(directory components untouched), every converted eligible file's artifact
is placed at that mirrored path, and splitting a name into stem and suffix
loses nothing — so no artifact is ever written at any other path. -/
theorem C4_mirrored_paths (py : PyStr) (decode : SrcFile → Option Decoded)
    (writeOk : SrcFile → Bool) (files : List SrcFile) :
    (∀ a ∈ (scan_and_convert py decode writeOk files).2.2,
      ∃ f ∈ files, isSupported f.name = true
        ∧ a.relDirs = f.relDirs ∧ a.fname = withSuffixH f.name)
    ∧ (∀ f ∈ files, isSupported f.name = true →
        fileOutcome py decode writeOk f
          = Option.map (fun c => Artifact.mk f.relDirs (withSuffixH f.name) c)
              (outcomeContent py decode writeOk f))
    ∧ (∀ name : List Char, withSuffixH name = fileStem name ++ ".h".data)
    ∧ (∀ name : List Char, fileStem name ++ fileSuffix name = name) := by
  refine ⟨?_, fun f _ _ => fileOutcome_eq_map py decode writeOk f, fun _ => rfl,
    fun name => stem_append_suffix name⟩
  intro a ha
  obtain ⟨f, hf, hsupp, ho⟩ := scan_artifacts_from py decode writeOk files a ha
  rw [fileOutcome_eq_map py decode writeOk f] at ho
  cases hc : outcomeContent py decode writeOk f with
  | none =>
    rw [hc] at ho
    cases ho
  | some c =>
    rw [hc] at ho
    simp only [Option.map_some'] at ho
    injection ho with ho'
    exact ⟨f, hf, hsupp, by rw [← ho'], by rw [← ho']⟩

/-- Witness for C4: one eligible file under `icons/` lands at its mirrored
path. -/
theorem C4_mirrored_paths_witness :
    fileOutcome asciiPy (fun _ => some ⟨1, 1, fun _ _ => ⟨0, 0, 0⟩⟩) (fun _ => true)
        ⟨["icons"], "my-icon.png".data⟩
      = Option.map
          (fun c => Artifact.mk ["icons"] (withSuffixH "my-icon.png".data) c)
          (outcomeContent asciiPy (fun _ => some ⟨1, 1, fun _ _ => ⟨0, 0, 0⟩⟩)
            (fun _ => true) ⟨["icons"], "my-icon.png".data⟩) :=
  (C4_mirrored_paths asciiPy (fun _ => some ⟨1, 1, fun _ _ => ⟨0, 0, 0⟩⟩) (fun _ => true)
      [⟨["icons"], "my-icon.png".data⟩]).2.1
    ⟨["icons"], "my-icon.png".data⟩ (List.mem_singleton.mpr rfl) (by decide)

/-- Converted plus errored equals the number of eligible files. -/
theorem scan_tally_sum (py : PyStr) (decode : SrcFile → Option Decoded) (writeOk : SrcFile → Bool) :
    ∀ files : List SrcFile,
      (scan_and_convert py decode writeOk files).1
          + (scan_and_convert py decode writeOk files).2.1
        = (files.filter (fun f => isSupported f.name)).length := by
  intro files
  induction files with
  | nil => rfl
  | cons f fs ih =>
    cases hs : isSupported f.name with
    | false =>
      rw [scan_cons_skip py decode writeOk f fs hs]
      simp [List.filter_cons, hs, ih]
    | true =>
      cases ho : fileOutcome py decode writeOk f with
      | some a =>
        rw [scan_cons_ok py decode writeOk f fs hs a ho]
        simp only [List.filter_cons, hs, if_pos, List.length_cons]
        omega
      | none =>
        rw [scan_cons_err py decode writeOk f fs hs ho]
        simp only [List.filter_cons, hs, if_pos, List.length_cons]
        omega

/-- The error counter counts exactly the eligible files whose decode or
write failed. -/
theorem scan_err_count (py : PyStr) (decode : SrcFile → Option Decoded) (writeOk : SrcFile → Bool) :
    ∀ files : List SrcFile,
      (scan_and_convert py decode writeOk files).2.1
        = (files.filter (fun f =>
            isSupported f.name && (fileOutcome py decode writeOk f).isNone)).length := by
  intro files
  induction files with
  | nil => rfl
  | cons f fs ih =>
    cases hs : isSupported f.name with
    | false =>
      rw [scan_cons_skip py decode writeOk f fs hs]
      simp [List.filter_cons, hs, ih]
    | true =>
      cases ho : fileOutcome py decode writeOk f with
      | some a =>
        rw [scan_cons_ok py decode writeOk f fs hs a ho]
        simp [List.filter_cons, hs, ho, ih]
      | none =>
        rw [scan_cons_err py decode writeOk f fs hs ho]
        simp [List.filter_cons, hs, ho, ih]

/-- A tree without eligible files converts to the empty tally. -/
theorem scan_no_eligible (py : PyStr) (decode : SrcFile → Option Decoded) (writeOk : SrcFile → Bool) :
    ∀ files : List SrcFile,
      (files.filter (fun f => isSupported f.name)).length = 0 →
      scan_and_convert py decode writeOk files = (0, 0, []) := by
  intro files
  induction files with
  | nil => intro _; rfl
  | cons f fs ih =>
    intro hzero
    cases hs : isSupported f.name with
    | false =>
      rw [scan_cons_skip py decode writeOk f fs hs]
      apply ih
      rw [List.filter_cons, hs] at hzero
      simpa using hzero
    | true =>
      exfalso
      rw [List.filter_cons, hs] at hzero
      simp at hzero

/-- **C5** — error tally.  In a traversal with `N` eligible files every
decode/write failure counts exactly one error, the tally satisfies
`converted + errors = N` and `converted = N - errors`, a single failing file
leaves the rest of the traversal untouched, and a tree with zero eligible
files yields the tally `(0, 0)`. -/
theorem C5_error_tally (py : PyStr) (decode : SrcFile → Option Decoded) (writeOk : SrcFile → Bool)
    (files : List SrcFile) :
    (scan_and_convert py decode writeOk files).1
        + (scan_and_convert py decode writeOk files).2.1
      = (files.filter (fun f => isSupported f.name)).length
    ∧ (scan_and_convert py decode writeOk files).2.1
      = (files.filter (fun f =>
          isSupported f.name && (fileOutcome py decode writeOk f).isNone)).length
    ∧ (scan_and_convert py decode writeOk files).1
      = (files.filter (fun f => isSupported f.name)).length
        - (scan_and_convert py decode writeOk files).2.1
    ∧ ((files.filter (fun f => isSupported f.name)).length = 0 →
        scan_and_convert py decode writeOk files = (0, 0, []))
    ∧ (∀ f : SrcFile, isSupported f.name = true →
        fileOutcome py decode writeOk f = none →
        scan_and_convert py decode writeOk (f :: files)
          = ((scan_and_convert py decode writeOk files).1,
             (scan_and_convert py decode writeOk files).2.1 + 1,
             (scan_and_convert py decode writeOk files).2.2)) := by
  have hsum := scan_tally_sum py decode writeOk files
  refine ⟨hsum, scan_err_count py decode writeOk files, by omega,
    scan_no_eligible py decode writeOk files,
    fun f hs ho => scan_cons_err py decode writeOk f files hs ho⟩

/-- Witness for C5: the empty tree yields the tally `(0, 0)`. -/
theorem C5_error_tally_witness :
    scan_and_convert asciiPy (fun _ => none) (fun _ => true) [] = (0, 0, []) :=
  (C5_error_tally asciiPy (fun _ => none) (fun _ => true) []).2.2.2.1 rfl

/-- A file's outcome depends only on what decoder and writer do on it. -/
theorem fileOutcome_congr (py : PyStr) (d1 d2 : SrcFile → Option Decoded)
    (w1 w2 : SrcFile → Bool) (f : SrcFile)
    (hd : d1 f = d2 f) (hw : w1 f = w2 f) :
    fileOutcome py d1 w1 f = fileOutcome py d2 w2 f := by
  unfold fileOutcome
  rw [hd, hw]

/-- A run is unaffected by what decoder and writer would do on ineligible
files: those are never decoded nor written. -/
theorem scan_congr (py : PyStr) (d1 d2 : SrcFile → Option Decoded) (w1 w2 : SrcFile → Bool) :
    ∀ files : List SrcFile,
      (∀ f ∈ files, isSupported f.name = true → d1 f = d2 f ∧ w1 f = w2 f) →
      scan_and_convert py d1 w1 files = scan_and_convert py d2 w2 files := by
  intro files
  induction files with
  | nil => intro _; rfl
  | cons f fs ih =>
    intro hagree
    have hrest := ih fun f' hf' => hagree f' (List.mem_cons_of_mem f hf')
    cases hs : isSupported f.name with
    | false =>
      rw [scan_cons_skip py d1 w1 f fs hs, scan_cons_skip py d2 w2 f fs hs, hrest]
    | true =>
      obtain ⟨hd, hw⟩ := hagree f (List.mem_cons_self f fs) hs
      have hout : fileOutcome py d1 w1 f = fileOutcome py d2 w2 f :=
        fileOutcome_congr py d1 d2 w1 w2 f hd hw
      cases ho : fileOutcome py d2 w2 f with
      | some a =>
        rw [scan_cons_ok py d1 w1 f fs hs a (hout.trans ho),
          scan_cons_ok py d2 w2 f fs hs a ho, hrest]
      | none =>
        rw [scan_cons_err py d1 w1 f fs hs (hout.trans ho),
          scan_cons_err py d2 w2 f fs hs ho, hrest]

/-- **C6** — eligibility.  A discovered file is converted iff its extension,
compared case-insensitively, is one of png, jpg, jpeg, bmp, gif, tiff; a
file without extension is never eligible; and the run does not depend on
what decoding or writing would do on ineligible files — they are never
decoded or converted. -/
theorem C6_supported_extensions (name : List Char) :
    (isSupported name = true ↔
      ∃ e ∈ ["png", "jpg", "jpeg", "bmp", "gif", "tiff"],
        lowerStr (fileSuffix name) = '.' :: e.data)
    ∧ (fileSuffix name = [] → isSupported name = false)
    ∧ ∀ (py : PyStr) (d1 d2 : SrcFile → Option Decoded) (w1 w2 : SrcFile → Bool)
        (files : List SrcFile),
        (∀ f ∈ files, isSupported f.name = true → d1 f = d2 f ∧ w1 f = w2 f) →
        scan_and_convert py d1 w1 files = scan_and_convert py d2 w2 files := by
  refine ⟨?_, ?_, fun py d1 d2 w1 w2 files h => scan_congr py d1 d2 w1 w2 files h⟩
  · unfold isSupported
    rw [decide_eq_true_eq]
    constructor
    · intro h
      simp only [SUPPORTED_FORMATS, List.mem_cons, List.not_mem_nil, or_false] at h
      rcases h with h | h | h | h | h | h
      · exact ⟨"png", by simp, h⟩
      · exact ⟨"jpg", by simp, h⟩
      · exact ⟨"jpeg", by simp, h⟩
      · exact ⟨"bmp", by simp, h⟩
      · exact ⟨"gif", by simp, h⟩
      · exact ⟨"tiff", by simp, h⟩
    · intro ⟨e, he, hx⟩
      simp only [List.mem_cons, List.not_mem_nil, or_false] at he
      rcases he with he | he | he | he | he | he <;> subst he <;>
        simp [SUPPORTED_FORMATS, hx]
  · intro h
    unfold isSupported
    rw [h]
    rfl

/-- Witness for C6: a name without any dot has no extension and is not
eligible. -/
theorem C6_supported_extensions_witness : isSupported "a".data = false :=
  (C6_supported_extensions "a".data).2.1 rfl

/-- **C7** — exit code.  A run exits 0 exactly when the source root exists,
no unhandled failure strikes, and no file failed to decode or write; it
exits 1 when any file failed, when the source root is missing (in which case
it stops before any traversal, writing nothing), and on any other unhandled
failure; no other exit code exists. -/
theorem C7_exit_code (verbose : Bool) (w : World) :
    (exitCode (runProgram verbose w).1 = 0 ↔
      w.sourceExists = true ∧ w.unexpected = false
        ∧ (scan_and_convert w.py w.decode w.writeOk w.files).2.1 = 0)
    ∧ (w.sourceExists = false → runProgram verbose w = (.sourceNotFound, []))
    ∧ (w.sourceExists = true → w.unexpected = true →
        exitCode (runProgram verbose w).1 = 1)
    ∧ (w.sourceExists = true → w.unexpected = false →
        0 < (scan_and_convert w.py w.decode w.writeOk w.files).2.1 →
        exitCode (runProgram verbose w).1 = 1)
    ∧ (exitCode (runProgram verbose w).1 = 0 ∨ exitCode (runProgram verbose w).1 = 1) := by
  obtain ⟨se, ue, fls, dec, wok, p⟩ := w
  cases se with
  | false => simp [runProgram, exitCode]
  | true =>
    cases ue with
    | true => simp [runProgram, exitCode]
    | false =>
      by_cases he : 0 < (scan_and_convert p dec wok fls).2.1
      · simp only [runProgram, exitCode, he]
        refine ⟨?_, ?_, ?_, ?_, ?_⟩ <;> simp [he] <;> omega
      · simp only [runProgram, exitCode, he]
        refine ⟨?_, ?_, ?_, ?_, ?_⟩ <;> simp [he] <;> omega

/-- Witness for C7: a missing source root aborts before traversal with no
artifact written. -/
theorem C7_exit_code_witness :
    runProgram true ⟨false, false, [], fun _ => none, fun _ => true, asciiPy⟩
      = (.sourceNotFound, []) :=
  (C7_exit_code true ⟨false, false, [], fun _ => none, fun _ => true, asciiPy⟩).2.1 rfl

/-- **C9 (amended)** — the `--verbose` flag is accepted by the argument
parser but never read by the program: two runs differing only in the flag
are fully identical — same artifacts, same tally, same exit code, and the
same diagnostics.  (The original claim's "enables verbose diagnostics" is
refuted by `C9_verbose_flag_counterexample`.) -/
theorem C9_verbose_flag_ignored (v1 v2 : Bool) (w : World) :
    runProgram v1 w = runProgram v2 w
    ∧ exitCode (runProgram v1 w).1 = exitCode (runProgram v2 w).1
    ∧ runDiagnostics v1 w = runDiagnostics v2 w :=
  ⟨rfl, rfl, rfl⟩

/-- **C9 counterexample** — on a run with one eligible file the diagnostics
printed with the flag set are exactly those printed without it (and they are
non-empty): the flag does not enable any verbose diagnostics. -/
theorem C9_verbose_flag_counterexample :
    runDiagnostics true
        ⟨true, false, [⟨[], "a.png".data⟩], fun _ => none, fun _ => true, asciiPy⟩
      = runDiagnostics false
        ⟨true, false, [⟨[], "a.png".data⟩], fun _ => none, fun _ => true, asciiPy⟩
    ∧ runDiagnostics true
        ⟨true, false, [⟨[], "a.png".data⟩], fun _ => none, fun _ => true, asciiPy⟩ ≠ [] :=
  ⟨rfl, by decide⟩
